import Mathlib

/-!
Verification development for the violet.ts task runner.

The embedding models the two implementation files of the repository:
the richer variant (severities log/warn/error, stderr fails a command)
and the simpler variant (severities log/warn, numeric log gate).
Pure data is modelled directly; the cooperative-concurrency execution of
`_complete`/`_runTask` is modelled as a fuel-indexed sequential semantics
producing an event trace, a per-task context store, and a settle status.
-/

namespace Violet

/-- A JavaScript-style value stored in an execution context. -/
inductive Value where
  | vNum (n : Int)
  | vStr (s : String)
  | vBool (b : Bool)
deriving DecidableEq, Repr

/-- `Ctx`: the string-keyed execution context object of a task
(`interface Ctx { [key: string]: any }`), modelled as an association list. -/
abbrev Ctx := List (String × Value)

/-- The empty context a fresh `TaskBuilderImpl` starts with (`_ctx = {}`). -/
def emptyCtx : Ctx := []

/-- A user function passed to `run`/`parallel`: receives the current context
and either throws (error, with the thrown reason, `none` for `undefined`)
or returns a replacement context (`some c`) or `undefined` (`none`). -/
abbrev Fn := Ctx → Except (Option String) (Option Ctx)

/-- Console channel a line is written to (`console.log` / `console.warn` /
`console.error`). -/
inductive Sev where
  | log
  | warn
  | error
deriving DecidableEq, Repr

/-- One queued job of a task, as built by the fluent builder:
`seq` from `run`, `par` from `parallel`, `cmd` from `exec`,
`logA`/`warnA`/`errorA` from `log`/`warn`/`error`. -/
inductive Action where
  | seq (fn : Fn)
  | par (fns : List Fn)
  | cmd (args : List String)
  | logA (args : List String)
  | warnA (args : List String)
  | errorA (args : List String)

/-- A declared task: its dependency names (`_deps`) and queued jobs (`_jobs`). -/
structure Task where
  deps : List String
  jobs : List Action

/-- Observable events of a run.  `line` is a console line on a channel;
`actionStart name i` marks that the task `name` began executing its job
at index `i` (instrumentation for the temporal claims); `completed name`
is the `_log("Task completed")` line `_complete` emits on success. -/
inductive Event where
  | line (sev : Sev) (text : String)
  | actionStart (task : String) (idx : Nat)
  | completed (task : String)
deriving DecidableEq, Repr

/-- The outcome of the callback `exec` hands to `node:child_process.exec`:
an optional launch/exit error message, captured stdout and stderr text. -/
structure CmdResult where
  error : Option String
  stdout : String
  stderr : String
deriving DecidableEq, Repr

/-- The shell collaborator: maps a command line to its result. -/
abbrev Shell := String → CmdResult

/-- How a promise settles: resolved (`ok`), rejected (`failed`, with the
rejection reason — `none` models a bare `rej()`), or never settles (`hung`). -/
inductive Status where
  | ok
  | failed (reason : Option String)
  | hung
deriving DecidableEq, Repr

/-- `args.join(" ")`. -/
def joinArgs (args : List String) : String :=
  String.intercalate " " args

/-- The per-task context store: each task name's current `_ctx`. -/
abbrev Store := String → Ctx

/-- Reassigning one task's `_ctx` field. -/
def setStore (σ : Store) (name : String) (c : Ctx) : Store :=
  fun m => if m = name then c else σ m

/-- Console lines produced by the richer variant's `exec` callback: every
matching branch logs (`_error` on `error`, `_warn` on truthy `stderr`,
`_log` on truthy `stdout`), with no early return between branches. -/
def execLogs (name : String) (r : CmdResult) : List Event :=
  (match r.error with
    | some m => [Event.line .error ("[" ++ name ++ "] ERROR: " ++ m)]
    | none => []) ++
  (if r.stderr ≠ "" then [Event.line .warn ("[" ++ name ++ "] WARN: " ++ r.stderr)] else []) ++
  (if r.stdout ≠ "" then [Event.line .log ("[" ++ name ++ "] LOG: " ++ r.stdout)] else [])

/-- How the richer variant's `exec` promise settles: the first of
`rej()` (on `error`), `rej()` (on truthy `stderr`), `res()` (on truthy
`stdout`) wins; if no branch fires, the promise never settles. -/
def execSettle (r : CmdResult) : Status :=
  if r.error.isSome then .failed none
  else if r.stderr ≠ "" then .failed none
  else if r.stdout ≠ "" then .ok
  else .hung

/-- Context left after a `parallel` job: every branch is started with the
context as of the job's start; each branch that returned a defined value
reassigns `_ctx` to it, in completion order (here: branch order), and a
throwing or `undefined`-returning branch assigns nothing. -/
def parCtx (init : Ctx) (rs : List (Except (Option String) (Option Ctx))) : Ctx :=
  rs.foldl
    (fun acc r =>
      match r with
      | .ok (some c) => c
      | _ => acc)
    init

/-- How the `Promise.all` of a `parallel` job settles: rejected with the
first branch rejection if any branch threw, else resolved. -/
def parStatus (rs : List (Except (Option String) (Option Ctx))) : Status :=
  match rs.findSome?
      (fun r => match r with | .error e => some (Status.failed e) | .ok _ => none) with
  | some s => s
  | none => .ok

/-- The result of awaiting part of a run: its console trace, the updated
per-task context store, and how it settled. -/
structure Res where
  trace : List Event
  store : Store
  status : Status

/-- Executing one queued job of task `name` at job index `i`
(richer variant). -/
def runJob (shell : Shell) (name : String) (i : Nat) (σ : Store) : Action → Res
  | .seq fn =>
    match fn (σ name) with
    | .error e => ⟨[.actionStart name i], σ, .failed e⟩
    | .ok none => ⟨[.actionStart name i], σ, .ok⟩
    | .ok (some c) => ⟨[.actionStart name i], setStore σ name c, .ok⟩
  | .par fns =>
    let rs := fns.map (fun f => f (σ name))
    ⟨[.actionStart name i], setStore σ name (parCtx (σ name) rs), parStatus rs⟩
  | .cmd args =>
    let r := shell (joinArgs args)
    ⟨.actionStart name i :: execLogs name r, σ, execSettle r⟩
  | .logA args =>
    ⟨[.actionStart name i, .line .log ("[" ++ name ++ "] LOG: " ++ joinArgs args)], σ, .ok⟩
  | .warnA args =>
    ⟨[.actionStart name i, .line .warn ("[" ++ name ++ "] WARN: " ++ joinArgs args)], σ, .ok⟩
  | .errorA args =>
    ⟨[.actionStart name i, .line .warn ("[" ++ name ++ "] ERROR: " ++ joinArgs args)], σ, .ok⟩

/-- The `for (const job of this._jobs) await job()` loop of `_complete`,
starting at job index `i`: jobs run strictly in order, and the first job
that rejects or hangs aborts the loop. -/
def runJobs (shell : Shell) (name : String) : List Action → Store → Nat → Res
  | [], σ, _ => ⟨[], σ, .ok⟩
  | a :: as, σ, i =>
    let r := runJob shell name i σ a
    match r.status with
    | .ok =>
      let r2 := runJobs shell name as r.store (i + 1)
      ⟨r.trace ++ r2.trace, r2.store, r2.status⟩
    | s => ⟨r.trace, r.store, s⟩

/-- The task registry `_tasks : Map<string, TaskBuilderImpl>`. -/
abbrev Registry := List (String × Task)

/-- `Map.get`. -/
def findTask : Registry → String → Option Task
  | [], _ => none
  | (k, t) :: r, n => if k = n then some t else findTask r n

/-- `Map.set`: replaces the value at an existing key, else appends. -/
def setTask : Registry → String → Task → Registry
  | [], n, t => [(n, t)]
  | (k, u) :: r, n, t => if k = n then (n, t) :: r else (k, u) :: setTask r n t

/-- Aggregating two awaited results as `Promise.all` does: the first
rejection wins; a hang without rejection leaves the `all` pending. -/
def combineStatus : Status → Status → Status
  | .failed e, _ => .failed e
  | .hung, .failed e => .failed e
  | .hung, _ => .hung
  | .ok, s => s

/-- `Promise.all(this._deps.map((dep) => this._violet._runTask(dep)))`:
every dependency is run (siblings are never cancelled), their traces and
context-store effects accumulate, and the statuses aggregate.  `recur` is
the run of one task at the remaining recursion depth. -/
def runDepsW (recur : Store → String → Res) : Store → List String → Res
  | σ, [] => ⟨[], σ, .ok⟩
  | σ, d :: ds =>
    let r := recur σ d
    let rs := runDepsW recur r.store ds
    ⟨r.trace ++ rs.trace, rs.store, combineStatus r.status rs.status⟩

/-- One unfolding of `_runTask`/`_complete`: unknown names are a resolved
no-op; otherwise dependencies run first (recursively, via `recur`), then —
only if all of them resolved — the task's own jobs in order, then the
`Task completed` log line. -/
def runTaskF (shell : Shell) (reg : Registry) (recur : Store → String → Res)
    (σ : Store) (name : String) : Res :=
  match findTask reg name with
  | none => ⟨[], σ, .ok⟩
  | some t =>
    let rd := runDepsW recur σ t.deps
    match rd.status with
    | .ok =>
      let rj := runJobs shell name t.jobs rd.store 0
      match rj.status with
      | .ok => ⟨rd.trace ++ rj.trace ++ [.completed name], rj.store, .ok⟩
      | s => ⟨rd.trace ++ rj.trace, rj.store, s⟩
    | s => ⟨rd.trace, rd.store, s⟩

/-- Fuel-indexed run of a task: out of fuel, a registered task's unbounded
dependency recursion is reported as pending (`hung`), while an unknown
name still resolves immediately. -/
def runTask (shell : Shell) (reg : Registry) : Nat → Store → String → Res
  | 0, σ, name =>
    match findTask reg name with
    | none => ⟨[], σ, .ok⟩
    | some _ => ⟨[], σ, .hung⟩
  | fuel + 1, σ, name => runTaskF shell reg (runTask shell reg fuel) σ name

/-! ### The fluent builder (`TaskBuilderImpl`'s construction phase) -/

/-- The construction-time state of one `TaskBuilderImpl`: its name, the
accumulated `_jobs` and `_deps`, and the warn-severity messages issued via
`_warn` while building (the zero-argument usage warnings). -/
structure Builder where
  name : String
  jobs : List Action
  deps : List String
  warnings : List String

/-- A fresh builder, as `addTask` creates it. -/
def newBuilder (name : String) : Builder :=
  ⟨name, [], [], []⟩

/-- `dep(...tasks)`: zero arguments issue one usage warning and mutate
nothing; otherwise every name is appended to `_deps`. -/
def Builder.dep (b : Builder) (tasks : List String) : Builder :=
  if tasks.isEmpty then
    { b with warnings := b.warnings ++ ["[" ++ b.name ++ "] WARN: dep() expects an array of function"] }
  else
    { b with deps := b.deps ++ tasks }

/-- `run(...fns)`: zero arguments issue one usage warning and mutate
nothing; otherwise one sequential job is queued per function, in order. -/
def Builder.runFns (b : Builder) (fns : List Fn) : Builder :=
  if fns.isEmpty then
    { b with warnings := b.warnings ++ ["[" ++ b.name ++ "] WARN: run() expects an array of function"] }
  else
    { b with jobs := b.jobs ++ fns.map Action.seq }

/-- `parallel(...fns)`: zero arguments issue one usage warning and mutate
nothing; otherwise exactly one parallel job wrapping all functions is
queued. -/
def Builder.parallel (b : Builder) (fns : List Fn) : Builder :=
  if fns.isEmpty then
    { b with warnings := b.warnings ++ ["[" ++ b.name ++ "] WARN: parallel() expects an array of function"] }
  else
    { b with jobs := b.jobs ++ [Action.par fns] }

/-- `exec(...args)`: zero arguments issue one usage warning and mutate
nothing; otherwise exactly one command job is queued. -/
def Builder.exec (b : Builder) (args : List String) : Builder :=
  if args.isEmpty then
    { b with warnings := b.warnings ++ ["[" ++ b.name ++ "] WARN: exec() expects an array of function"] }
  else
    { b with jobs := b.jobs ++ [Action.cmd args] }

/-- `log(...args)`: queues one log job unconditionally — there is no
zero-argument guard on this method. -/
def Builder.log (b : Builder) (args : List String) : Builder :=
  { b with jobs := b.jobs ++ [Action.logA args] }

/-- `warn(...args)`: queues one warn job unconditionally — no guard. -/
def Builder.warn (b : Builder) (args : List String) : Builder :=
  { b with jobs := b.jobs ++ [Action.warnA args] }

/-- `error(...args)`: queues one error job unconditionally — no guard. -/
def Builder.error (b : Builder) (args : List String) : Builder :=
  { b with jobs := b.jobs ++ [Action.errorA args] }

/-- The task a finished builder denotes. -/
def Builder.toTask (b : Builder) : Task :=
  ⟨b.deps, b.jobs⟩

/-- The declaration-phase state of the runner: the registry and every
task's current `_ctx`. -/
structure VioletSt where
  tasks : Registry
  ctxs : Store

/-- `addTask(name)` followed by the chained builder calls `build`:
stores the resulting task under `name` (overwriting any prior task of
that name) with a fresh empty context. -/
def declare (v : VioletSt) (name : String) (build : Builder → Builder) : VioletSt :=
  { tasks := setTask v.tasks name (build (newBuilder name)).toTask,
    ctxs := setStore v.ctxs name emptyCtx }

/-! ### The simpler variant's log gate and command adapter (`src/index.ts`) -/

/-- `LogLevelHierarchy.warn`. -/
def warnRank : Nat := 2

/-- `LogLevelHierarchy.log`. -/
def logRank : Nat := 3

/-- The initial value of `VioletImpl._log_level`. -/
def defaultLogLevel : Nat := 1

/-- `VioletImpl._shouldLog`: a message of rank `msgRank` passes the gate
iff its rank is at most the current level and the level is positive. -/
def shouldLog (level msgRank : Nat) : Bool :=
  decide (msgRank ≤ level) && decide (0 < level)

/-- `VioletImpl._log`: the lines actually written for a log-rank message
at gate level `level`. -/
def violetLog (level : Nat) (s : String) : List String :=
  if shouldLog level logRank then [s] else []

/-- `VioletImpl._warn`: the lines actually written for a warn-rank message
at gate level `level`. -/
def violetWarn (level : Nat) (s : String) : List String :=
  if shouldLog level warnRank then [s] else []

/-- The simpler variant's queued `log(...)` job: it calls `console.log`
directly, so its output does not depend on the gate level at all. -/
def simpleLogAction (name : String) (args : List String) : List String :=
  ["[" ++ name ++ "] LOG: " ++ joinArgs args]

/-- The simpler variant's `exeCommand` console lines: an error logs
`Error: …` and returns; otherwise a truthy stderr logs `Stderr: …`
(both via `console.error`); stdout is never logged. -/
def exeCommandLogs (r : CmdResult) : List Event :=
  match r.error with
  | some m => [Event.line .error ("Error: " ++ m)]
  | none => if r.stderr ≠ "" then [Event.line .error ("Stderr: " ++ r.stderr)] else []

/-- How the simpler variant's `exeCommand` promise settles: rejected with
the error iff `exec` reported one, else resolved (stderr alone does not
fail it). -/
def exeCommandSettle (r : CmdResult) : Status :=
  match r.error with
  | some m => .failed (some m)
  | none => .ok

/-! ### Completion-order-parameterized context outcome of a parallel job -/

/-- Context left by a parallel job whose branches produced the results
`rs` (read from the same initial context) and reassigned `_ctx` in the
completion order `order` (a permutation of the branch indices): each
branch that returned a defined value overwrites the context wholesale
when its turn comes. -/
def parCtxOrder (init : Ctx) (rs : List (Option Ctx)) (order : List Nat) : Ctx :=
  order.foldl
    (fun acc i =>
      match rs.get? i with
      | some (some c) => c
      | _ => acc)
    init

/-- The defined replacement values among the branch results, forgetting
thrown branches (which assign nothing), as used by `parCtx`. -/
def okResults (rs : List (Except (Option String) (Option Ctx))) : List (Option Ctx) :=
  rs.map (fun r => match r with | .ok o => o | .error _ => none)

/-! ### Concrete instances used in witnesses -/

/-- A shell on which every command succeeds silently. -/
def shell0 : Shell := fun _ => ⟨none, "", ""⟩

/-- A shell on which every command exits non-zero (as `false` does). -/
def shellF : Shell := fun _ => ⟨some "Command failed: false", "", ""⟩

/-- All contexts empty. -/
def store0 : Store := fun _ => emptyCtx

/-- A sequential function returning a replacement context. -/
def fnRepl : Fn := fun _ => .ok (some [("flag", Value.vBool true)])

/-- A sequential function returning `undefined`. -/
def fnPass : Fn := fun _ => .ok none

/-- A sequential function prepending one entry to the context it got. -/
def fnCons : Fn := fun c => .ok (some (("k", Value.vNum 1) :: c))

/-- A task with no dependencies and one log action. -/
def taskA : Task := ⟨[], [.logA ["x"]]⟩

/-- A task depending on `a`, with one replacing sequential action. -/
def taskB : Task := ⟨["a"], [.seq fnRepl]⟩

/-- A two-task registry: `b` depends on `a`. -/
def reg1 : Registry := [("a", taskA), ("b", taskB)]

/-- A one-task registry whose task runs a failing command and then a log. -/
def reg2 : Registry := [("t", ⟨[], [.cmd ["false"], .logA ["x"]]⟩)]

/-- A one-task registry whose task prepends to its own context. -/
def regInc : Registry := [("a", ⟨[], [.seq fnCons]⟩)]

/-- `{n: 1}`. -/
def ctxN1 : Ctx := [("n", Value.vNum 1)]

/-- `{n: 2}`. -/
def ctxN2 : Ctx := [("n", Value.vNum 2)]

/-- Branch results of a two-branch parallel job, one setting `{n: 1}`,
one setting `{n: 2}`. -/
def demoRs : List (Option Ctx) := [some ctxN1, some ctxN2]

end Violet

namespace Violet

/-! ### Helper lemmas -/

theorem findTask_setTask_self (reg : Registry) (n : String) (t : Task) :
    findTask (setTask reg n t) n = some t := by
  induction reg with
  | nil => simp [setTask, findTask]
  | cons hd tl ih =>
    obtain ⟨k, u⟩ := hd
    by_cases h : k = n <;> simp [setTask, findTask, h, ih]

theorem setTask_setTask (reg : Registry) (n : String) (t1 t2 : Task) :
    setTask (setTask reg n t1) n t2 = setTask reg n t2 := by
  induction reg with
  | nil => simp [setTask]
  | cons hd tl ih =>
    obtain ⟨k, u⟩ := hd
    by_cases h : k = n <;> simp [setTask, h, ih]

theorem combineStatus_ok {a b : Status} (h : combineStatus a b = .ok) :
    a = .ok ∧ b = .ok := by
  cases a <;> cases b <;> simp_all [combineStatus]

/-- A run of a registered task that resolves has emitted its own
`Task completed` line. -/
theorem runTask_ok_completed (shell : Shell) (reg : Registry) (fuel : Nat)
    (σ : Store) (d : String) (t : Task) (h : findTask reg d = some t)
    (hok : (runTask shell reg fuel σ d).status = .ok) :
    Event.completed d ∈ (runTask shell reg fuel σ d).trace := by
  cases fuel with
  | zero => simp [runTask, h] at hok
  | succ fuel =>
    simp only [runTask, runTaskF, h] at hok ⊢
    rcases hrd : (runDepsW (runTask shell reg fuel) σ t.deps).status with _ | e | _ <;>
      simp only [hrd] at hok ⊢
    · rcases hrj : (runJobs shell d t.jobs
          (runDepsW (runTask shell reg fuel) σ t.deps).store 0).status with _ | e | _ <;>
        simp_all
    · simp at hok
    · simp at hok

/-- If the `Promise.all` over the dependency list resolved, every
registered dependency's `Task completed` line is in the dependency part
of the trace. -/
theorem runDepsW_completed (shell : Shell) (reg : Registry) (fuel : Nat) :
    ∀ (ds : List String) (σ : Store),
      (runDepsW (runTask shell reg fuel) σ ds).status = .ok →
      ∀ d ∈ ds, findTask reg d ≠ none →
        Event.completed d ∈ (runDepsW (runTask shell reg fuel) σ ds).trace := by
  intro ds
  induction ds with
  | nil => intro σ hok d hd; simp at hd
  | cons d0 ds ih =>
    intro σ hok d hd hreg
    simp only [runDepsW] at hok ⊢
    obtain ⟨h1, h2⟩ := combineStatus_ok hok
    rcases List.mem_cons.mp hd with rfl | hd2
    · obtain ⟨t, ht⟩ := Option.ne_none_iff_exists.mp (by simpa using hreg)
      exact List.mem_append_left _
        (runTask_ok_completed shell reg fuel σ d t ht.symm h1)
    · exact List.mem_append_right _
        (ih ((runTask shell reg fuel σ d0).store) h2 d hd2 hreg)

/-! ### Theorems settling the claims -/

/-- C1: running a registered task first runs all its declared
dependencies (each recursively running its own dependencies, via the
same `runTask` at the remaining depth); if that dependency phase
resolved, every registered dependency has completed inside the
dependency part of the trace, and the task's own jobs contribute only
the part of the trace strictly after it; if the dependency phase
rejected, the task's own jobs contribute nothing at all. -/
theorem deps_complete_before_actions (shell : Shell) (reg : Registry)
    (fuel : Nat) (σ : Store) (name : String) (t : Task) (rd : Res)
    (h : findTask reg name = some t)
    (hrd : rd = runDepsW (runTask shell reg fuel) σ t.deps) :
    (∀ d ∈ t.deps, rd.status = .ok → findTask reg d ≠ none →
      Event.completed d ∈ rd.trace) ∧
    (rd.status = .ok →
      runTask shell reg (fuel + 1) σ name =
        ⟨rd.trace ++ (runJobs shell name t.jobs rd.store 0).trace ++
            (match (runJobs shell name t.jobs rd.store 0).status with
              | .ok => [Event.completed name]
              | _ => []),
          (runJobs shell name t.jobs rd.store 0).store,
          (runJobs shell name t.jobs rd.store 0).status⟩) ∧
    (∀ e, rd.status = .failed e →
      runTask shell reg (fuel + 1) σ name = ⟨rd.trace, rd.store, .failed e⟩) := by
  subst hrd
  refine ⟨?_, ?_, ?_⟩
  · intro d hd hok hreg
    exact runDepsW_completed shell reg fuel t.deps σ hok d hd hreg
  · intro hok
    simp only [runTask, runTaskF, h, hok]
    rcases hrj : (runJobs shell name t.jobs
        (runDepsW (runTask shell reg fuel) σ t.deps).store 0).status with _ | e | _ <;>
      simp [hrj, List.append_assoc]
  · intro e he
    simp [runTask, runTaskF, h, he]

/-- Witness for C1: on `reg1`, `b`'s dependency phase resolves, `a`'s
completion line is inside it, and the whole trace of running `b` puts
`b`'s own action strictly after the dependency part. -/
theorem deps_complete_before_actions_witness :
    Event.completed "a" ∈ (runDepsW (runTask shell0 reg1 1) store0 taskB.deps).trace ∧
    runTask shell0 reg1 2 store0 "b" =
      ⟨(runDepsW (runTask shell0 reg1 1) store0 taskB.deps).trace ++
          (runJobs shell0 "b" taskB.jobs
            (runDepsW (runTask shell0 reg1 1) store0 taskB.deps).store 0).trace ++
          [Event.completed "b"],
        (runJobs shell0 "b" taskB.jobs
          (runDepsW (runTask shell0 reg1 1) store0 taskB.deps).store 0).store,
        .ok⟩ := by
  have h := deps_complete_before_actions shell0 reg1 1 store0 "b" taskB
    (runDepsW (runTask shell0 reg1 1) store0 taskB.deps) rfl rfl
  constructor
  · exact h.1 "a" (by simp [taskB]) rfl (by simp [reg1, findTask])
  · have h2 := h.2.1 rfl
    rw [h2]
    rfl

/-- Indices of `actionStart` events of one job. -/
theorem runJob_actionStart (shell : Shell) (name : String) (i : Nat)
    (σ : Store) (a : Action) (nm : String) (m : Nat)
    (h : Event.actionStart nm m ∈ (runJob shell name i σ a).trace) :
    nm = name ∧ m = i := by
  cases a with
  | seq fn =>
    rcases hf : fn (σ name) with e | o
    · simp_all [runJob, hf]
    · rcases o with _ | c <;> simp_all [runJob, hf]
  | par fns => simp_all [runJob]
  | cmd args =>
    simp only [runJob, List.mem_cons] at h
    rcases h with h | h
    · simp_all
    · exfalso
      simp only [execLogs, List.mem_append] at h
      rcases h with (h | h) | h
      · rcases he : (shell (joinArgs args)).error with _ | m2 <;> simp_all
      · by_cases hs : (shell (joinArgs args)).stderr = "" <;> simp_all
      · by_cases hs : (shell (joinArgs args)).stdout = "" <;> simp_all
  | logA args => simp_all [runJob]
  | warnA args => simp_all [runJob]
  | errorA args => simp_all [runJob]

/-- Indices of `actionStart` events of a job-list run started at `i`. -/
theorem runJobs_actionStart (shell : Shell) (name : String) :
    ∀ (js : List Action) (σ : Store) (i : Nat) (nm : String) (m : Nat),
      Event.actionStart nm m ∈ (runJobs shell name js σ i).trace →
      nm = name ∧ i ≤ m ∧ m < i + js.length := by
  intro js
  induction js with
  | nil => intro σ i nm m h; simp [runJobs] at h
  | cons a as ih =>
    intro σ i nm m h
    simp only [runJobs] at h
    rcases hs : (runJob shell name i σ a).status with _ | e | _ <;>
      simp only [hs] at h
    · rcases List.mem_append.mp h with h1 | h2
      · obtain ⟨rfl, rfl⟩ := runJob_actionStart shell name i σ a nm m h1
        exact ⟨rfl, Nat.le_refl _, by simp only [List.length_cons]; omega⟩
      · obtain ⟨rfl, hle, hlt⟩ := ih ((runJob shell name i σ a).store) (i + 1) nm m h2
        refine ⟨rfl, by omega, ?_⟩
        simp only [List.length_cons]
        omega
    · obtain ⟨rfl, rfl⟩ := runJob_actionStart shell name i σ a nm m h
      exact ⟨rfl, Nat.le_refl _, by simp only [List.length_cons]; omega⟩
    · obtain ⟨rfl, rfl⟩ := runJob_actionStart shell name i σ a nm m h
      exact ⟨rfl, Nat.le_refl _, by simp only [List.length_cons]; omega⟩

/-- Running a list of jobs whose prefix resolves and whose next job
rejects stops exactly at the rejecting job: the suffix contributes
nothing and the rejection is the result. -/
theorem runJobs_fail_at (shell : Shell) (name : String) :
    ∀ (js1 : List Action) (a : Action) (js2 : List Action) (σ : Store)
      (i : Nat) (e : Option String),
      (runJobs shell name js1 σ i).status = .ok →
      (runJob shell name (i + js1.length)
        ((runJobs shell name js1 σ i).store) a).status = .failed e →
      runJobs shell name (js1 ++ a :: js2) σ i =
        ⟨(runJobs shell name js1 σ i).trace ++
            (runJob shell name (i + js1.length)
              ((runJobs shell name js1 σ i).store) a).trace,
          (runJob shell name (i + js1.length)
            ((runJobs shell name js1 σ i).store) a).store,
          .failed e⟩ := by
  intro js1
  induction js1 with
  | nil =>
    intro a js2 σ i e hok hfail
    simp only [runJobs, List.length_nil, Nat.add_zero] at hok hfail ⊢
    simp only [List.nil_append, runJobs, hfail]
  | cons b js1 ih =>
    intro a js2 σ i e hok hfail
    rcases hb : (runJob shell name i σ b).status with _ | eb | _
    · have hok2 : (runJobs shell name js1 ((runJob shell name i σ b).store)
          (i + 1)).status = .ok := by
        simpa only [runJobs, hb] using hok
      have hlen : i + (b :: js1).length = (i + 1) + js1.length := by
        simp only [List.length_cons]
        omega
      have hstore : (runJobs shell name (b :: js1) σ i).store =
          (runJobs shell name js1 ((runJob shell name i σ b).store) (i + 1)).store := by
        simp only [runJobs, hb]
      have htr : (runJobs shell name (b :: js1) σ i).trace =
          (runJob shell name i σ b).trace ++
            (runJobs shell name js1 ((runJob shell name i σ b).store) (i + 1)).trace := by
        simp only [runJobs, hb]
      rw [hlen, hstore] at hfail
      have hrec := ih a js2 ((runJob shell name i σ b).store) (i + 1) e hok2 hfail
      simp only [List.cons_append, runJobs, hb, List.append_eq, hrec, htr, hstore,
        hlen, List.append_assoc]
    · exfalso
      simp only [runJobs, hb] at hok
      exact Status.noConfusion hok
    · exfalso
      simp only [runJobs, hb] at hok
      exact Status.noConfusion hok

/-- C3: if, after a resolved dependency phase, the job at index
`js1.length` rejects while all jobs before it resolved, then the whole
run of the task rejects with that rejection, the jobs after it
contribute nothing to the trace, no `Task completed` line for this
invocation is emitted, and every `actionStart` of the task's own part of
the trace has index at most that of the rejecting job. -/
theorem failure_aborts_remaining (shell : Shell) (reg : Registry)
    (fuel : Nat) (σ : Store) (name : String) (t : Task)
    (js1 : List Action) (a : Action) (js2 : List Action) (e : Option String)
    (rd : Res)
    (h : findTask reg name = some t)
    (hjobs : t.jobs = js1 ++ a :: js2)
    (hrd : rd = runDepsW (runTask shell reg fuel) σ t.deps)
    (hrdok : rd.status = .ok)
    (hpre : (runJobs shell name js1 rd.store 0).status = .ok)
    (hfail : (runJob shell name js1.length
      ((runJobs shell name js1 rd.store 0).store) a).status = .failed e) :
    runTask shell reg (fuel + 1) σ name =
      ⟨rd.trace ++ ((runJobs shell name js1 rd.store 0).trace ++
          (runJob shell name js1.length
            ((runJobs shell name js1 rd.store 0).store) a).trace),
        (runJob shell name js1.length
          ((runJobs shell name js1 rd.store 0).store) a).store,
        .failed e⟩ ∧
    (∀ nm m, Event.actionStart nm m ∈
        (runJobs shell name js1 rd.store 0).trace ++
          (runJob shell name js1.length
            ((runJobs shell name js1 rd.store 0).store) a).trace →
      m ≤ js1.length) := by
  subst hrd
  have hz : (0 : Nat) + js1.length = js1.length := Nat.zero_add _
  have hfail0 := hfail
  rw [← hz] at hfail0
  have hstop := runJobs_fail_at shell name js1 a js2
    ((runDepsW (runTask shell reg fuel) σ t.deps).store) 0 e hpre hfail0
  rw [hz] at hstop
  constructor
  · simp only [runTask, runTaskF, h, hrdok, hjobs, hstop]
  · intro nm m hm
    rcases List.mem_append.mp hm with h1 | h2
    · obtain ⟨-, -, hlt⟩ := runJobs_actionStart shell name js1
        ((runDepsW (runTask shell reg fuel) σ t.deps).store) 0 nm m h1
      omega
    · obtain ⟨-, rfl⟩ := runJob_actionStart shell name js1.length
        ((runJobs shell name js1
          ((runDepsW (runTask shell reg fuel) σ t.deps).store) 0).store) a nm m h2
      exact Nat.le_refl _

/-- Witness for C3: on `reg2` (one task `t` with a failing command and a
subsequent log action) the run of `t` rejects, the trace stops at the
command, and no started action has index above 0. -/
theorem failure_aborts_remaining_witness :
    runTask shellF reg2 1 store0 "t" =
      ⟨(runDepsW (runTask shellF reg2 0) store0 []).trace ++
          ((runJobs shellF "t" [] (runDepsW (runTask shellF reg2 0) store0 []).store 0).trace ++
            (runJob shellF "t" 0
              ((runJobs shellF "t" []
                (runDepsW (runTask shellF reg2 0) store0 []).store 0).store)
              (.cmd ["false"])).trace),
        (runJob shellF "t" 0
          ((runJobs shellF "t" []
            (runDepsW (runTask shellF reg2 0) store0 []).store 0).store)
          (.cmd ["false"])).store,
        .failed none⟩ := by
  have h := failure_aborts_remaining shellF reg2 0 store0 "t"
    ⟨[], [.cmd ["false"], .logA ["x"]]⟩ [] (.cmd ["false"]) [.logA ["x"]] none
    (runDepsW (runTask shellF reg2 0) store0 []) rfl rfl rfl rfl rfl rfl
  exact h.1

theorem parCtxOrder_no_assign (rs : List (Option Ctx)) :
    ∀ (order : List Nat) (init : Ctx),
      (∀ i ∈ order, ∀ c, rs.get? i ≠ some (some c)) →
      parCtxOrder init rs order = init := by
  intro order
  induction order with
  | nil => intro init h; rfl
  | cons j o ih =>
    intro init h
    have hrest : ∀ i ∈ o, ∀ c, rs.get? i ≠ some (some c) :=
      fun i hi => h i (List.mem_cons_of_mem _ hi)
    rcases hg : rs.get? j with _ | oc
    · simpa only [parCtxOrder, List.foldl_cons, hg] using ih init hrest
    · rcases oc with _ | c
      · simpa only [parCtxOrder, List.foldl_cons, hg] using ih init hrest
      · exact absurd hg (h j (List.mem_cons_self j o) c)

theorem parCtxOrder_assigned (rs : List (Option Ctx)) :
    ∀ (order : List Nat) (init : Ctx),
      (∃ i ∈ order, ∃ c, rs.get? i = some (some c)) →
      ∃ i ∈ order, ∃ c, rs.get? i = some (some c) ∧
        parCtxOrder init rs order = c := by
  intro order
  induction order with
  | nil =>
    rintro init ⟨i, hi, -⟩
    exact absurd hi (List.not_mem_nil i)
  | cons j o ih =>
    intro init hex
    by_cases ho : ∃ i ∈ o, ∃ c, rs.get? i = some (some c)
    · rcases hg : rs.get? j with _ | oc
      · obtain ⟨i, hi, c, hc, heq⟩ := ih init ho
        refine ⟨i, List.mem_cons_of_mem _ hi, c, hc, ?_⟩
        simpa only [parCtxOrder, List.foldl_cons, hg] using heq
      · rcases oc with _ | c0
        · obtain ⟨i, hi, c, hc, heq⟩ := ih init ho
          refine ⟨i, List.mem_cons_of_mem _ hi, c, hc, ?_⟩
          simpa only [parCtxOrder, List.foldl_cons, hg] using heq
        · obtain ⟨i, hi, c, hc, heq⟩ := ih c0 ho
          refine ⟨i, List.mem_cons_of_mem _ hi, c, hc, ?_⟩
          simpa only [parCtxOrder, List.foldl_cons, hg] using heq
    · rcases hg : rs.get? j with _ | oc
      · exfalso
        obtain ⟨i, hi, c, hc⟩ := hex
        rcases List.mem_cons.mp hi with rfl | hi2
        · rw [hg] at hc; exact Option.noConfusion hc
        · exact ho ⟨i, hi2, c, hc⟩
      · rcases oc with _ | c0
        · exfalso
          obtain ⟨i, hi, c, hc⟩ := hex
          rcases List.mem_cons.mp hi with rfl | hi2
          · rw [hg] at hc
            simp at hc
          · exact ho ⟨i, hi2, c, hc⟩
        · refine ⟨j, List.mem_cons_self j o, c0, hg, ?_⟩
          have hno : ∀ i ∈ o, ∀ c, rs.get? i ≠ some (some c) := by
            intro i hi c hc
            exact ho ⟨i, hi, c, hc⟩
          simpa only [parCtxOrder, List.foldl_cons, hg]
            using parCtxOrder_no_assign rs o c0 hno

theorem parCtxOrder_range_cons (r0 : Option Ctx) (rs : List (Option Ctx))
    (init : Ctx) :
    parCtxOrder init (r0 :: rs) (List.range (rs.length + 1)) =
      parCtxOrder (match r0 with | some c => c | none => init) rs
        (List.range rs.length) := by
  rw [List.range_succ_eq_map]
  simp only [parCtxOrder, List.foldl_cons, List.foldl_map]
  congr 1
  rcases r0 with _ | c <;> rfl

theorem parCtx_eq_range :
    ∀ (rs : List (Except (Option String) (Option Ctx))) (init : Ctx),
      parCtx init rs = parCtxOrder init (okResults rs) (List.range rs.length) := by
  intro rs
  induction rs with
  | nil => intro init; rfl
  | cons r rs ih =>
    intro init
    have hlen : (okResults rs).length = rs.length := List.length_map _ _
    have hcons : okResults (r :: rs) =
        (match r with | .ok o => o | .error _ => none) :: okResults rs := rfl
    rw [hcons, List.length_cons, ← hlen, parCtxOrder_range_cons, hlen]
    rcases r with e | o
    · simpa only [parCtx, List.foldl_cons] using ih init
    · rcases o with _ | c
      · simpa only [parCtx, List.foldl_cons] using ih init
      · simpa only [parCtx, List.foldl_cons] using ih c

/-- C9: a parallel job starts all branches on the context as of the
job's start and resolves only once the whole branch result list is in;
for every completion order of the branches (any permutation of the
branch indices), the context afterwards is either the initial one — and
then only because no branch returned a value — or exactly the value
returned by the branch that assigned last (never a merge); and the
outcome genuinely depends on the completion order, so it is not a fixed
deterministic choice. -/
theorem parallel_last_assignment_wins :
    (∀ (shell : Shell) (name : String) (i : Nat) (σ : Store) (fns : List Fn),
      runJob shell name i σ (.par fns) =
        ⟨[.actionStart name i],
          setStore σ name
            (parCtxOrder (σ name) (okResults (fns.map (fun f => f (σ name))))
              (List.range fns.length)),
          parStatus (fns.map (fun f => f (σ name)))⟩) ∧
    (∀ (init : Ctx) (rs : List (Option Ctx)) (order : List Nat),
      order.Perm (List.range rs.length) →
      (parCtxOrder init rs order = init ∧ ∀ r ∈ rs, r = none) ∨
      (∃ i c, rs.get? i = some (some c) ∧ parCtxOrder init rs order = c)) ∧
    (parCtxOrder emptyCtx demoRs [0, 1] = ctxN2 ∧
      parCtxOrder emptyCtx demoRs [1, 0] = ctxN1 ∧ ctxN1 ≠ ctxN2) := by
  refine ⟨?_, ?_, by decide, by decide, by decide⟩
  · intro shell name i σ fns
    have hlen : (fns.map (fun f => f (σ name))).length = fns.length :=
      List.length_map _ _
    simp only [runJob, parCtx_eq_range, hlen]
  · intro init rs order hperm
    by_cases hex : ∃ i ∈ order, ∃ c, rs.get? i = some (some c)
    · obtain ⟨i, -, c, hc, heq⟩ := parCtxOrder_assigned rs order init hex
      exact Or.inr ⟨i, c, hc, heq⟩
    · refine Or.inl ⟨parCtxOrder_no_assign rs order init ?_, ?_⟩
      · intro i hi c hc
        exact hex ⟨i, hi, c, hc⟩
      · intro r hr
        obtain ⟨n, hn⟩ := List.mem_iff_get?.mp hr
        have hlt : n < rs.length := by
          rcases List.get?_eq_some.mp hn with ⟨h, -⟩
          exact h
        have hmem : n ∈ order := hperm.mem_iff.mpr (List.mem_range.mpr hlt)
        rcases r with _ | c
        · rfl
        · exact (hex ⟨n, hmem, c, hn⟩).elim

/-- Witness for C9: with branches that set `{n: 1}` and `{n: 2}` and the
completion order in which branch 0 assigns last, the context is one of
the branch-returned values. -/
theorem parallel_last_assignment_wins_witness :
    (parCtxOrder emptyCtx demoRs [1, 0] = emptyCtx ∧ ∀ r ∈ demoRs, r = none) ∨
    (∃ i c, demoRs.get? i = some (some c) ∧ parCtxOrder emptyCtx demoRs [1, 0] = c) :=
  parallel_last_assignment_wins.2.1 emptyCtx demoRs [1, 0] (by decide)

/-- C10: a task's context is created empty exactly once, at declaration,
and `runTask` never resets it: a dependency-free task's run consumes the
store exactly as it finds it, so a second execution of the same task
starts from whatever context the first execution left. -/
theorem ctx_created_once_not_reset :
    (∀ (v : VioletSt) (name : String) (build : Builder → Builder),
      (declare v name build).ctxs name = emptyCtx) ∧
    (∀ (shell : Shell) (reg : Registry) (fuel : Nat) (σ : Store)
      (name : String) (t : Task),
      findTask reg name = some t → t.deps = [] →
      runTask shell reg (fuel + 1) σ name =
        match (runJobs shell name t.jobs σ 0).status with
        | .ok => ⟨(runJobs shell name t.jobs σ 0).trace ++ [Event.completed name],
            (runJobs shell name t.jobs σ 0).store, .ok⟩
        | s => ⟨(runJobs shell name t.jobs σ 0).trace,
            (runJobs shell name t.jobs σ 0).store, s⟩) := by
  constructor
  · intro v name build
    simp [declare, setStore]
  · intro shell reg fuel σ name t h hdeps
    simp only [runTask, runTaskF, h, hdeps, runDepsW]
    rcases hs : (runJobs shell name t.jobs σ 0).status with _ | e | _ <;>
      simp [hs]

/-- Witness for C10: declaring `a` gives it the empty context, and
running the context-prepending task `a` twice in a row ends with two
prepended entries — the second run started from the first run's
context, not from a fresh one. -/
theorem ctx_created_once_not_reset_witness :
    (declare ⟨[], store0⟩ "a" id).ctxs "a" = emptyCtx ∧
    (runTask shell0 regInc (0 + 1)
        ((runTask shell0 regInc (0 + 1) store0 "a").store) "a").store "a" =
      [("k", Value.vNum 1), ("k", Value.vNum 1)] := by
  refine ⟨ctx_created_once_not_reset.1 ⟨[], store0⟩ "a" id, ?_⟩
  have h2 := ctx_created_once_not_reset.2 shell0 regInc 0
    ((runTask shell0 regInc (0 + 1) store0 "a").store) "a" ⟨[], [.seq fnCons]⟩ rfl rfl
  rw [h2]
  rfl


/-- C2: a Sequential action whose function returns a defined value
replaces the task's context wholesale with that value (no merge); one
whose function returns no value leaves the context identically as it
was. -/
theorem seq_ctx_replace_or_keep (shell : Shell) (name : String) (i : Nat)
    (σ : Store) (fn : Fn) :
    (∀ c, fn (σ name) = .ok (some c) →
      runJob shell name i σ (.seq fn) = ⟨[.actionStart name i], setStore σ name c, .ok⟩ ∧
      setStore σ name c name = c) ∧
    (fn (σ name) = .ok none →
      runJob shell name i σ (.seq fn) = ⟨[.actionStart name i], σ, .ok⟩) := by
  constructor
  · intro c h
    constructor
    · simp [runJob, h]
    · simp [setStore]
  · intro h
    simp [runJob, h]

/-- Witness for C2: a function returning `{flag: true}` makes the context
exactly `{flag: true}`, and a function returning `undefined` leaves the
store untouched. -/
theorem seq_ctx_replace_or_keep_witness :
    (runJob shell0 "b" 0 store0 (.seq fnRepl)).store "b" = [("flag", Value.vBool true)] ∧
    runJob shell0 "b" 0 store0 (.seq fnPass) = ⟨[.actionStart "b" 0], store0, .ok⟩ := by
  have h1 := (seq_ctx_replace_or_keep shell0 "b" 0 store0 fnRepl).1
      [("flag", Value.vBool true)] rfl
  have h2 := (seq_ctx_replace_or_keep shell0 "b" 0 store0 fnPass).2 rfl
  exact ⟨by rw [h1.1]; exact h1.2, h2⟩

/-- C4 counterexample: calling the builder's `log` with zero arguments
mutates the task's job list and issues no warning, contradicting the
claim that every variadic builder method has the zero-argument guard. -/
theorem log_zero_args_unguarded :
    ¬ (((newBuilder "t").log []).jobs.length = (newBuilder "t").jobs.length ∧
        ((newBuilder "t").log []).warnings.length = 1) := by
  intro h
  simp [newBuilder, Builder.log] at h

/-- C4 amended: `dep`, `run`, `parallel` and `exec` have the
zero-argument guard (no mutation, exactly one warning); `log`, `warn`
and `error` have no guard — with zero arguments each appends one job
and issues no warning. -/
theorem builder_zero_args (b : Builder) :
    ((b.dep []).deps = b.deps ∧ (b.dep []).jobs = b.jobs ∧
      (b.dep []).warnings =
        b.warnings ++ ["[" ++ b.name ++ "] WARN: dep() expects an array of function"]) ∧
    ((b.runFns []).deps = b.deps ∧ (b.runFns []).jobs = b.jobs ∧
      (b.runFns []).warnings =
        b.warnings ++ ["[" ++ b.name ++ "] WARN: run() expects an array of function"]) ∧
    ((b.parallel []).deps = b.deps ∧ (b.parallel []).jobs = b.jobs ∧
      (b.parallel []).warnings =
        b.warnings ++ ["[" ++ b.name ++ "] WARN: parallel() expects an array of function"]) ∧
    ((b.exec []).deps = b.deps ∧ (b.exec []).jobs = b.jobs ∧
      (b.exec []).warnings =
        b.warnings ++ ["[" ++ b.name ++ "] WARN: exec() expects an array of function"]) ∧
    ((b.log []).jobs = b.jobs ++ [.logA []] ∧ (b.log []).deps = b.deps ∧
      (b.log []).warnings = b.warnings) ∧
    ((b.warn []).jobs = b.jobs ++ [.warnA []] ∧ (b.warn []).deps = b.deps ∧
      (b.warn []).warnings = b.warnings) ∧
    ((b.error []).jobs = b.jobs ++ [.errorA []] ∧ (b.error []).deps = b.deps ∧
      (b.error []).warnings = b.warnings) := by
  refine ⟨⟨?_, ?_, ?_⟩, ⟨?_, ?_, ?_⟩, ⟨?_, ?_, ?_⟩, ⟨?_, ?_, ?_⟩, ⟨?_, ?_, ?_⟩,
    ⟨?_, ?_, ?_⟩, ⟨?_, ?_, ?_⟩⟩ <;>
    simp [Builder.dep, Builder.runFns, Builder.parallel, Builder.exec,
      Builder.log, Builder.warn, Builder.error]

/-- C5 counterexample: with the default gate level, neither a log-rank
nor a warn-rank message is emitted — the default is fully restrictive
for gated messages, not permissive. -/
theorem default_gate_silent :
    violetLog defaultLogLevel "[a] LOG: Task completed" = [] ∧
    violetWarn defaultLogLevel "w" = [] := by
  constructor <;> rfl

/-- C5 amended: the gate is one integer threshold and a gated message is
emitted iff its rank is at most the threshold and the threshold is
positive; but the default threshold 1 is below every rank, so by default
the gate emits nothing until `logLevel` is called; and the builder's
queued `log` action prints via `console.log` directly, bypassing the
gate entirely. -/
theorem log_gate_amended :
    (∀ level msgRank, shouldLog level msgRank = true ↔ msgRank ≤ level ∧ 0 < level) ∧
    (∀ s, violetLog defaultLogLevel s = [] ∧ violetWarn defaultLogLevel s = []) ∧
    (∀ name args, simpleLogAction name args ≠ []) := by
  refine ⟨?_, ?_, ?_⟩
  · intro level msgRank
    simp [shouldLog]
  · intro s
    constructor <;> rfl
  · intro name args
    simp [simpleLogAction]

/-- C6: at the failing input — a command that exits zero with empty
stdout and empty stderr — the richer variant's `exec` callback fires no
branch, so its promise neither resolves nor rejects and nothing is
logged: the action does not settle at all. -/
theorem exec_silent_success_hangs :
    execSettle ⟨none, "", ""⟩ = .hung ∧ execLogs "t" ⟨none, "", ""⟩ = [] := by
  constructor <;> rfl

/-- C7: declaring a task name twice stores only the second task, and
running that name behaves exactly as if the first declaration had never
happened. -/
theorem redeclare_overwrites (shell : Shell) (reg : Registry) (n : String)
    (t1 t2 : Task) :
    findTask (setTask (setTask reg n t1) n t2) n = some t2 ∧
    ∀ fuel σ, runTask shell (setTask (setTask reg n t1) n t2) fuel σ n =
      runTask shell (setTask reg n t2) fuel σ n := by
  rw [setTask_setTask]
  exact ⟨findTask_setTask_self reg n t2, fun _ _ => rfl⟩

/-- C8: running a name not present in the registry resolves with an
empty trace and leaves every task's context unchanged. -/
theorem unknown_task_noop (shell : Shell) (reg : Registry) (fuel : Nat)
    (σ : Store) (name : String) (h : findTask reg name = none) :
    runTask shell reg fuel σ name = ⟨[], σ, .ok⟩ := by
  cases fuel <;> simp [runTask, runTaskF, h]

/-- Witness for C8: running the unregistered name `ghost` on `reg1` is a
resolved no-op. -/
theorem unknown_task_noop_witness :
    findTask reg1 "ghost" = none ∧
    runTask shell0 reg1 3 store0 "ghost" = ⟨[], store0, .ok⟩ :=
  ⟨rfl, unknown_task_noop shell0 reg1 3 store0 "ghost" rfl⟩

end Violet
